import Mathlib

/-!
Shallow embedding of the galileo-osnma core: the TESLA one-way key-chain
function (`src/tesla.rs`) and the subframe-synchronized ingestion pipeline
(`galmon-osnma/src/main.rs`).  Bytes are modelled as `Nat` values `< 256`,
machine integers as `Nat` with explicit `% 2 ^ w` where overflow matters,
and fallible code (Rust panics) as `Option`.
-/

set_option maxRecDepth 8000

namespace GalileoOsnma

/-! ## Byte / word helpers -/

/-- `2 ^ 32`, the modulus of `u32` arithmetic. -/
def M32 : Nat := 4294967296

/-- `2 ^ 64`, the modulus of `u64` arithmetic. -/
def M64 : Nat := 18446744073709551616

/-- Big-endian byte decomposition: `beBytes n v` is the `n` low-order bytes
of `v`, most significant first (the semantics of Rust `to_be_bytes`). -/
def beBytes : Nat → Nat → List Nat
  | 0, _ => []
  | n + 1, v => (v / 2 ^ (8 * n)) % 256 :: beBytes n v

/-! ## SHA-256 (the `sha2` crate dependency), executable over byte lists -/

/-- Right rotation of a 32-bit word. -/
def rotr32 (n x : Nat) : Nat := ((x >>> n) ||| ((x <<< (32 - n)) % M32)) % M32

def bsig0 (x : Nat) : Nat := rotr32 2 x ^^^ rotr32 13 x ^^^ rotr32 22 x

def bsig1 (x : Nat) : Nat := rotr32 6 x ^^^ rotr32 11 x ^^^ rotr32 25 x

def ssig0 (x : Nat) : Nat := rotr32 7 x ^^^ rotr32 18 x ^^^ (x >>> 3)

def ssig1 (x : Nat) : Nat := rotr32 17 x ^^^ rotr32 19 x ^^^ (x >>> 10)

def chF (x y z : Nat) : Nat := (x &&& y) ^^^ ((x ^^^ 4294967295) &&& z)

def majF (x y z : Nat) : Nat := Nat.xor (Nat.xor (x &&& y) (x &&& z)) (y &&& z)

/-- The 64 SHA-256 round constants (FIPS 180-4, in decimal). -/
def sha256K : List Nat :=
  [1116352408, 1899447441, 3049323471, 3921009573, 961987163, 1508970993,
   2453635748, 2870763221, 3624381080, 310598401, 607225278, 1426881987,
   1925078388, 2162078206, 2614888103, 3248222580, 3835390401, 4022224774,
   264347078, 604807628, 770255983, 1249150122, 1555081692, 1996064986,
   2554220882, 2821834349, 2952996808, 3210313671, 3336571891, 3584528711,
   113926993, 338241895, 666307205, 773529912, 1294757372, 1396182291,
   1695183700, 1986661051, 2177026350, 2456956037, 2730485921, 2820302411,
   3259730800, 3345764771, 3516065817, 3600352804, 4094571909, 275423344,
   430227734, 506948616, 659060556, 883997877, 958139571, 1322822218,
   1537002063, 1747873779, 1955562222, 2024104815, 2227730452, 2361852424,
   2428436474, 2756734187, 3204031479, 3329325298]

/-- The SHA-256 initial hash state (FIPS 180-4, in decimal). -/
def sha256H0 : List Nat :=
  [1779033703, 3144134277, 1013904242, 2773480762,
   1359893119, 2600822924, 528734635, 1541459225]

/-- One step of message-schedule extension.  The schedule is kept reversed:
the head is the most recently produced word. -/
def scheduleStep (w : List Nat) : List Nat :=
  ((ssig1 (w.getD 1 0) + w.getD 6 0 + ssig0 (w.getD 14 0) + w.getD 15 0) % M32) :: w

/-- Extend a 16-word block to the full 64-word schedule (in order). -/
def sha256Schedule (block : List Nat) : List Nat :=
  (Nat.iterate scheduleStep 48 block.reverse).reverse

/-- One SHA-256 compression round; the state is the 8-word list
`[a, b, c, d, e, f, g, h]` and `kw` is `K[i] + W[i]` reduced mod `2 ^ 32`. -/
def compress1 (hs : List Nat) (kw : Nat) : List Nat :=
  match hs with
  | [a, b, c, d, e, f, g, h] =>
    let t1 := (h + bsig1 e + chF e f g + kw) % M32
    let t2 := (bsig0 a + majF a b c) % M32
    [(t1 + t2) % M32, a, b, c, (d + t1) % M32, e, f, g]
  | _ => hs

/-- Process one 16-word block: run 64 rounds and add the result into the
incoming state. -/
def sha256Block (hs block : List Nat) : List Nat :=
  let ws := sha256Schedule block
  let final := (sha256K.zip ws).foldl (fun st kw => compress1 st ((kw.1 + kw.2) % M32)) hs
  List.zipWith (fun a b => (a + b) % M32) hs final

/-- Split a word list into 16-word blocks. -/
def chunk16 : List Nat → List (List Nat)
  | w0 :: w1 :: w2 :: w3 :: w4 :: w5 :: w6 :: w7 ::
    w8 :: w9 :: w10 :: w11 :: w12 :: w13 :: w14 :: w15 :: rest =>
    [w0, w1, w2, w3, w4, w5, w6, w7,
     w8, w9, w10, w11, w12, w13, w14, w15] :: chunk16 rest
  | _ => []

/-- Fold the compression function over all 16-word blocks. -/
def sha256Blocks (hs : List Nat) (blocks : List (List Nat)) : List Nat :=
  blocks.foldl sha256Block hs

/-- Group bytes into 32-bit big-endian words. -/
def bytesToWords : List Nat → List Nat
  | a :: b :: c :: d :: rest => (((a * 256 + b) * 256 + c) * 256 + d) :: bytesToWords rest
  | _ => []

/-- Serialize 32-bit words back to big-endian bytes. -/
def wordsToBytes : List Nat → List Nat
  | [] => []
  | w :: rest => beBytes 4 w ++ wordsToBytes rest

/-- SHA-256 padding: append `0x80`, zero bytes, and the 64-bit big-endian
bit length, reaching a multiple of 64 bytes. -/
def sha256Pad (msg : List Nat) : List Nat :=
  msg ++ [128] ++ List.replicate ((119 - msg.length % 64) % 64) 0
      ++ beBytes 8 (8 * msg.length)

/-- SHA-256 of a byte list, as a 32-byte list. -/
def sha256 (msg : List Nat) : List Nat :=
  wordsToBytes (sha256Blocks sha256H0 (chunk16 (bytesToWords (sha256Pad msg))))

/-! ## SHA3-256 (the `sha3` crate dependency), executable over byte lists -/

/-- Left rotation of a 64-bit lane. -/
def rotl64 (n x : Nat) : Nat :=
  (((x <<< (n % 64)) % M64) ||| (x >>> (64 - n % 64))) % M64

/-- Keccak ρ rotation offsets stored column-major: entry `5 * x + y` is the
offset of lane `(x, y)`. -/
def keccakRho : List Nat :=
  [0, 36, 3,
   41, 18, 1,
   44, 10, 45,
   2, 62, 6,
   43, 15, 61,
   28, 55, 25,
   21, 56, 27,
   20, 39, 8,
   14]

/-- Keccak ι round constants (FIPS 202, in decimal). -/
def keccakRC : List Nat :=
  [1, 32898, 9223372036854808714,
   9223372039002292224, 32907, 2147483649,
   9223372039002292353, 9223372036854808585, 138,
   136, 2147516425, 2147483658,
   2147516555, 9223372036854775947, 9223372036854808713,
   9223372036854808579, 9223372036854808578, 9223372036854775936,
   32778, 9223372039002259466, 9223372039002292353,
   9223372036854808704, 2147483649, 9223372039002292232]

/-- Keccak θ step on the 25-lane state. -/
def keccakTheta (A : List Nat) : List Nat :=
  let C := List.ofFn (fun x : Fin 5 =>
    A.getD x.val 0 ^^^ A.getD (x.val + 5) 0 ^^^ A.getD (x.val + 10) 0 ^^^
      A.getD (x.val + 15) 0 ^^^ A.getD (x.val + 20) 0)
  let D := List.ofFn (fun x : Fin 5 =>
    C.getD ((x.val + 4) % 5) 0 ^^^ rotl64 1 (C.getD ((x.val + 1) % 5) 0))
  List.ofFn (fun i : Fin 25 => A.getD i.val 0 ^^^ D.getD (i.val % 5) 0)

/-- Keccak ρ and π steps combined: output lane `(X, Y)` is the rotated input
lane `((X + 3Y) % 5, X)`. -/
def keccakRhoPi (A : List Nat) : List Nat :=
  List.ofFn (fun j : Fin 25 =>
    let X := j.val % 5
    let Y := j.val / 5
    let x := (X + 3 * Y) % 5
    rotl64 (keccakRho.getD (5 * x + X) 0) (A.getD (x + 5 * X) 0))

/-- Keccak χ step. -/
def keccakChi (B : List Nat) : List Nat :=
  List.ofFn (fun j : Fin 25 =>
    let x := j.val % 5
    let y5 := 5 * (j.val / 5)
    B.getD j.val 0 ^^^
      ((B.getD ((x + 1) % 5 + y5) 0 ^^^ (M64 - 1)) &&& B.getD ((x + 2) % 5 + y5) 0))

/-- One Keccak-f round: θ, ρ, π, χ, then ι with round constant `rc`. -/
def keccakRound (A : List Nat) (rc : Nat) : List Nat :=
  match keccakChi (keccakRhoPi (keccakTheta A)) with
  | a0 :: rest => (a0 ^^^ rc) :: rest
  | [] => []

/-- The Keccak-f[1600] permutation (24 rounds). -/
def keccakP (A : List Nat) : List Nat := keccakRC.foldl keccakRound A

/-- Group bytes into 64-bit little-endian lanes. -/
def bytesToLanes : List Nat → List Nat
  | b0 :: b1 :: b2 :: b3 :: b4 :: b5 :: b6 :: b7 :: rest =>
    (b0 + 256 * (b1 + 256 * (b2 + 256 * (b3 + 256 * (b4 + 256 * (b5 + 256 * (b6 + 256 * b7)))))))
      :: bytesToLanes rest
  | _ => []

/-- Little-endian byte decomposition of a lane. -/
def leBytes : Nat → Nat → List Nat
  | 0, _ => []
  | n + 1, v => v % 256 :: leBytes n (v / 256)

/-- XOR a block of rate lanes into the state. -/
def keccakAbsorb (st lanes : List Nat) : List Nat :=
  List.ofFn (fun i : Fin 25 => st.getD i.val 0 ^^^ lanes.getD i.val 0)

/-- Absorb 17-lane (136-byte) blocks one at a time. -/
def keccakBlocks (st : List Nat) : List Nat → List Nat
  | l0 :: l1 :: l2 :: l3 :: l4 :: l5 :: l6 :: l7 :: l8 ::
    l9 :: l10 :: l11 :: l12 :: l13 :: l14 :: l15 :: l16 :: rest =>
    keccakBlocks
      (keccakP (keccakAbsorb st [l0, l1, l2, l3, l4, l5, l6, l7, l8,
                                 l9, l10, l11, l12, l13, l14, l15, l16])) rest
  | _ => st

/-- SHA-3 multi-rate padding at rate 136 bytes. -/
def sha3Pad (msg : List Nat) : List Nat :=
  let q := 136 - msg.length % 136
  if q = 1 then msg ++ [0x86]
  else msg ++ 6 :: List.replicate (q - 2) 0 ++ [128]

/-- SHA3-256 of a byte list, as a 32-byte list. -/
def sha3_256 (msg : List Nat) : List Nat :=
  let st := keccakBlocks (List.replicate 25 0) (bytesToLanes (sha3Pad msg))
  leBytes 8 (st.getD 0 0) ++ leBytes 8 (st.getD 1 0) ++
    leBytes 8 (st.getD 2 0) ++ leBytes 8 (st.getD 3 0)

/-! ## Galileo System Time (`Gst`)

The `Gst` struct lives in the library's `types.rs`, which is not among the
provided sources; `tesla.rs` and `main.rs` use its `wn`/`tow` fields, its
constructor, its subframe projection, and its derived ordering.  The parts
not visible in the sources are modelled from the spec. -/

/-- A GST instant: week number and time of week in seconds. -/
structure Gst where
  wn : Nat
  tow : Nat
  deriving DecidableEq, Repr

/-- Total seconds represented by a GST instant (one week is 604800 s). -/
def gstVal (g : Gst) : Nat := g.wn * 604800 + g.tow

/-- Modelled from the spec: the subframe boundary of a GST instant is
`time_of_week - (time_of_week mod 30)` in the same week
(`Gst::gst_subframe` is not among the provided sources). -/
def gstSubframe (g : Gst) : Gst := { wn := g.wn, tow := g.tow - g.tow % 30 }

/-- Modelled from the spec: the temporal (lexicographic) strict order on GST
instants used by the derived `Ord` that `main.rs` compares subframes with. -/
def gstLt (a b : Gst) : Bool :=
  decide (a.wn < b.wn ∨ (a.wn = b.wn ∧ a.tow < b.tow))

/-! ## TESLA chain keys (`src/tesla.rs`) -/

/-- `MAX_KEY_BYTES`: capacity of the fixed backing array of a key. -/
def MAX_KEY_BYTES : Nat := 32

/-- Modelled from the spec: hash-function selector, one of
`{SHA-256, SHA3-256, Reserved}` (the `HashFunction` enum lives in
`bitfields.rs`, which is not among the provided sources). -/
inductive HashFunction where
  | Sha256
  | Sha3_256
  | Reserved
  deriving DecidableEq, Repr

/-- `ChainParameters`: hash selector and the 48-bit truncation constant
`alpha` (a `u64` in the source, hence modelled as `Nat` masked where used). -/
structure ChainParameters where
  hash : HashFunction
  alpha : Nat
  deriving DecidableEq, Repr

/-- `Key`: fixed 32-byte backing array (`data`), bit length (`size`), and
anchor subframe.  The derived Rust `PartialEq` compares all three fields,
as does the derived `DecidableEq` here. -/
structure Key where
  data : List Nat
  size : Nat
  gst_subframe : Gst
  deriving DecidableEq, Repr

/-- Pad (or cut) a byte list to the 32-byte backing array, zero-filled:
the effect of copying `l` into a fresh `[0u8; 32]`. -/
def padTo32 (l : List Nat) : List Nat := l.take 32 ++ List.replicate (32 - l.length) 0

/-- MSB-first bit list to bytes (semantics of `bitvec`'s `Msb0` copy). -/
def bitsToBytes : List Bool → List Nat
  | b0 :: b1 :: b2 :: b3 :: b4 :: b5 :: b6 :: b7 :: rest =>
    (b0.toNat * 128 + b1.toNat * 64 + b2.toNat * 32 + b3.toNat * 16 +
     b4.toNat * 8 + b5.toNat * 4 + b6.toNat * 2 + b7.toNat) :: bitsToBytes rest
  | _ => []

/-- `Key::from_slice`.  `none` models the `assert!(gst.tow % 30 == 0)` in
`check_gst` and the out-of-capacity abort of `data[..size].copy_from_slice`. -/
def Key.from_slice (slice : List Nat) (gst : Gst) : Option Key :=
  if gst.tow % 30 = 0 ∧ slice.length ≤ MAX_KEY_BYTES then
    some { data := padTo32 slice, size := 8 * slice.length, gst_subframe := gst }
  else none

/-- `Key::from_bitslice`.  `none` models `check_gst`, the
`assert!(size % 8 == 0)`, and the out-of-capacity abort of the bit copy. -/
def Key.from_bitslice (slice : List Bool) (gst : Gst) : Option Key :=
  if gst.tow % 30 = 0 ∧ slice.length % 8 = 0 ∧ slice.length ≤ 8 * MAX_KEY_BYTES then
    some { data := padTo32 (bitsToBytes slice), size := slice.length, gst_subframe := gst }
  else none

/-- The previous-subframe computation inside `Key::one_way_function`:
step back 30 seconds, borrowing a week when `tow` is 0. -/
def prevSubframe (g : Gst) : Gst :=
  { wn := if g.tow = 0 then g.wn - 1 else g.wn,
    tow := if g.tow = 0 then 7 * 24 * 3600 - 30 else g.tow - 30 }

/-- The 4 bytes written by `gst_bits[0..12].store_be(wn)` and
`gst_bits[12..32].store_be(tow)`: 12 bits of week then 20 bits of
time-of-week, MSB first (`store_be` keeps only the low bits). -/
def owfGstBytes (p : Gst) : List Nat :=
  [(p.wn % 4096) / 16,
   (p.wn % 16) * 16 + (p.tow % 1048576) / 65536,
   (p.tow % 1048576) / 256 % 256,
   (p.tow % 1048576) % 256]

/-- The hashed buffer of `Key::one_way_function`: `size` key bytes, the 4
GST bytes of the previous subframe, and `alpha.to_be_bytes()[2..]`. -/
def owfBuffer (k : Key) (alpha : Nat) : List Nat :=
  k.data.take (k.size / 8) ++ owfGstBytes (prevSubframe k.gst_subframe) ++
    (beBytes 8 alpha).drop 2

/-- `Key::one_way_function`.  `none` models the `Reserved` abort
(`panic!`), the out-of-capacity abort of `buffer[..size]`, and the `u16`
week underflow when stepping back from week 0, second 0. -/
def Key.one_way_function (k : Key) (p : ChainParameters) : Option Key :=
  let size := k.size / 8
  if size ≤ MAX_KEY_BYTES then
    if k.gst_subframe.tow = 0 ∧ k.gst_subframe.wn = 0 then none
    else
      let previous := prevSubframe k.gst_subframe
      let buffer := owfBuffer k p.alpha
      match p.hash with
      | HashFunction.Sha256 =>
        some { data := padTo32 ((sha256 buffer).take size), size := k.size,
               gst_subframe := previous }
      | HashFunction.Sha3_256 =>
        some { data := padTo32 ((sha3_256 buffer).take size), size := k.size,
               gst_subframe := previous }
      | HashFunction.Reserved => none
  else none

/-- Iterated derivation: apply `one_way_function` `n` times. -/
def owfIterate (p : ChainParameters) : Nat → Key → Option Key
  | 0, k => some k
  | n + 1, k =>
    match k.one_way_function p with
    | some k' => owfIterate p n k'
    | none => none

/-- Well-formedness of a key's backing array: 32 bytes, zero beyond the
logical `size / 8` prefix. -/
def KeyWf (k : Key) : Prop :=
  k.data.length = 32 ∧ ∀ i < 32, k.size / 8 ≤ i → k.data.getD i 0 = 0

/-- The chain key `42b419da6ada1c0a3d6f56a5e5dc59a7` of the source's test. -/
def keyBytesA : List Nat :=
  [0x42, 0xb4, 0x19, 0xda, 0x6a, 0xda, 0x1c, 0x0a,
   0x3d, 0x6f, 0x56, 0xa5, 0xe5, 0xdc, 0x59, 0xa7]

/-- The chain key `9542aad47abf39bafe566861afe880b2` of the source's test. -/
def keyBytesB : List Nat :=
  [0x95, 0x42, 0xaa, 0xd4, 0x7a, 0xbf, 0x39, 0xba,
   0xfe, 0x56, 0x68, 0x61, 0xaf, 0xe8, 0x80, 0xb2]

/-- The chain parameters of the source's test vector. -/
def testChain : ChainParameters :=
  { hash := HashFunction.Sha256, alpha := 0x25d3964da3a2 }

/-! ## Field extractor (`galmon-osnma/src/main.rs`) -/

/-- The bit the extractor reads at position `i`: bit `7 - i % 8` of byte
`i / 8`, i.e. `(data_bytes[byte_index] >> (7 - bit_index)) & 1`. -/
def bitAt (data_bytes : List Nat) (i : Nat) : Nat :=
  (data_bytes.getD (i / 8) 0 >>> (7 - i % 8)) &&& 1

/-- `extract_bits_range`: accumulate bits `start ..= stop` into a `u32`
accumulator by shift-and-or (`value = (value << 1) | bit`).
(`stop` renders the Rust parameter `end`, a reserved word here.) -/
def extract_bits_range (data_bytes : List Nat) (start stop : Nat) : Nat :=
  (List.range (stop + 1 - start)).foldl
    (fun value j => ((value <<< 1) % M32) ||| bitAt data_bytes (start + j))
    0

/-- The unbounded MSB-first reading of bits `start ..= stop`, following the
spec's words ("the unsigned integer formed by reading bits ... MSB first"). -/
def specBitsRange (data_bytes : List Nat) (start stop : Nat) : Nat :=
  (List.range (stop + 1 - start)).foldl
    (fun value j => 2 * value + bitAt data_bytes (start + j))
    0

/-- `extract_all_bits`: the static descriptor table applied to a buffer.
The Rust `HashMap` with pairwise-distinct keys is modelled as the
association list in insertion order. -/
def extract_all_bits (data_bytes : List Nat) : List (String × Nat) :=
  [("T0E", extract_bits_range data_bytes 11 24),
   ("M0", extract_bits_range data_bytes 25 56),
   ("E", extract_bits_range data_bytes 57 88),
   ("AQRTA", extract_bits_range data_bytes 89 120),
   ("OMEGA0", extract_bits_range data_bytes 131 162),
   ("I0", extract_bits_range data_bytes 163 194),
   ("OMEGA", extract_bits_range data_bytes 195 226),
   ("IDOT", extract_bits_range data_bytes 227 240),
   ("OMEGADOT", extract_bits_range data_bytes 251 274),
   ("DELTAN", extract_bits_range data_bytes 275 290),
   ("CUC", extract_bits_range data_bytes 291 306),
   ("CUS", extract_bits_range data_bytes 307 322),
   ("CRC", extract_bits_range data_bytes 323 338),
   ("CRS", extract_bits_range data_bytes 339 354),
   ("CIC", extract_bits_range data_bytes 379 394),
   ("CIS", extract_bits_range data_bytes 395 410),
   ("T0C", extract_bits_range data_bytes 411 424),
   ("AF0", extract_bits_range data_bytes 425 455),
   ("AF1", extract_bits_range data_bytes 456 476),
   ("AF2", extract_bits_range data_bytes 477 482),
   ("AI0", extract_bits_range data_bytes 483 493),
   ("AI1", extract_bits_range data_bytes 494 504),
   ("AI2", extract_bits_range data_bytes 505 518),
   ("REGION1", extract_bits_range data_bytes 519 519),
   ("REGION2", extract_bits_range data_bytes 520 520),
   ("REGION3", extract_bits_range data_bytes 521 521),
   ("REGION4", extract_bits_range data_bytes 522 522),
   ("REGION5", extract_bits_range data_bytes 523 523),
   ("BGDA", extract_bits_range data_bytes 524 533),
   ("BGDB", extract_bits_range data_bytes 534 543),
   ("E5BHS", extract_bits_range data_bytes 544 545),
   ("E1BHS", extract_bits_range data_bytes 546 547),
   ("E5BDVS", extract_bits_range data_bytes 548 548),
   ("E1BDVS", extract_bits_range data_bytes 549 549)]

/-! ## The ingestion pipeline state machine (`main` loop of `main.rs`)

The external Authentication Engine (`Osnma`) is abstracted as an oracle
`polls : Nat → PollResult` giving, per satellite number, the blocks the
engine would currently return from `get_ced_and_status` /
`get_timing_parameters`, already materialized as byte buffers. -/

/-- `NUM_SVNS`.  Modelled from the spec: SVN range is `[1, NUM_SVNS]`;
the library constant is 36 (Galileo constellation). -/
def NUM_SVNS : Nat := 36

/-- What polling the engine yields for one satellite. -/
structure PollResult where
  ced : Option (List Nat)
  timing : Option (List Nat)
  deriving DecidableEq

/-- Which per-satellite block kind a report concerns. -/
inductive BlockKind where
  | ced
  | timing
  deriving DecidableEq, Repr

/-- An emitted `log::info!` report of newly authenticated data. -/
structure Report where
  svn : Nat
  kind : BlockKind
  bytes : List Nat
  deriving DecidableEq, Repr

/-- The mutable state of the main loop. -/
structure LoopState where
  currentSubframe : Option Gst
  lastTowMod30 : Nat
  cedCache : List (Option (List Nat))
  timingCache : List (Option (List Nat))
  deriving DecidableEq

/-- The initial loop state: no watermark, zero TOW history, empty caches. -/
def initialState : LoopState :=
  { currentSubframe := none, lastTowMod30 := 0,
    cedCache := List.replicate NUM_SVNS none,
    timingCache := List.replicate NUM_SVNS none }

/-- One incoming Galmon message carrying an INAV word (fields used by the
loop; `sigid` present, as the loop's pattern requires). -/
structure InavMessage where
  gnss_wn : Nat
  gnss_tow : Nat
  gnss_sv : Nat
  sigid : Nat
  word : List Nat
  osnma : Option (List Nat)
  deriving DecidableEq

/-- The Galmon TOW-artifact correction: add `29 - 15` seconds when the
normalized TOW is 15 mod 30 and the last recorded TOW was ≥ 19 mod 30. -/
def correctTow (lastTowMod30 tow : Nat) : Nat :=
  if tow % 30 = 15 ∧ 19 ≤ lastTowMod30 then tow + (29 - 15) else tow

/-- The week number computed for a message: raw week plus the weeks folded
out of an oversized raw TOW. -/
def msgWn (m : InavMessage) : Nat := m.gnss_wn + m.gnss_tow / 604800

/-- The corrected TOW computed for a message given the TOW history. -/
def msgTow (lastTowMod30 : Nat) (m : InavMessage) : Nat :=
  correctTow lastTowMod30 (m.gnss_tow % 604800)

/-- The GST instant the loop attributes to a message. -/
def msgGst (lastTowMod30 : Nat) (m : InavMessage) : Gst :=
  { wn := msgWn m, tow := msgTow lastTowMod30 m }

/-- The state after a word is rejected as stale: only the TOW history moved. -/
def staleState (s : LoopState) (m : InavMessage) : LoopState :=
  { s with lastTowMod30 := msgTow s.lastTowMod30 m % 30 }

/-- The state after a word passes the subframe check: TOW history moved and
the watermark set to the word's boundary. -/
def acceptState (s : LoopState) (m : InavMessage) : LoopState :=
  { s with lastTowMod30 := msgTow s.lastTowMod30 m % 30,
           currentSubframe := some (gstSubframe (msgGst s.lastTowMod30 m)) }

/-- Change detection for one cached block: report and overwrite unless the
polled buffer is byte-for-byte the cached one (`.map(|d| d == data_bytes)
.unwrap_or(false)`). -/
def cedPollStep (cached poll : Option (List Nat)) : Option (List Nat) × Bool :=
  match poll with
  | none => (cached, false)
  | some bytes => if cached = some bytes then (cached, false) else (some bytes, true)

/-- The body of the per-satellite polling loop for cache index `idx`
(satellite `idx + 1`): CED/status block first, then timing parameters. -/
def pollSvnStep (polls : Nat → PollResult) (idx : Nat)
    (acc : LoopState × List Report) : LoopState × List Report :=
  let s := acc.1
  let pr := polls (idx + 1)
  let ced := cedPollStep (s.cedCache.getD idx none) pr.ced
  let s1 := { s with cedCache := s.cedCache.set idx ced.1 }
  let reps1 := if ced.2 then
    acc.2 ++ [{ svn := idx + 1, kind := BlockKind.ced, bytes := ced.1.getD [] }]
    else acc.2
  let tim := cedPollStep (s1.timingCache.getD idx none) pr.timing
  let s2 := { s1 with timingCache := s1.timingCache.set idx tim.1 }
  let reps2 := if tim.2 then
    reps1 ++ [{ svn := idx + 1, kind := BlockKind.timing, bytes := tim.1.getD [] }]
    else reps1
  (s2, reps2)

/-- `for svn in Svn::iter()`: fold the polling body over a list of indices. -/
def pollLoop (polls : Nat → PollResult) :
    List Nat → LoopState × List Report → LoopState × List Report
  | [], acc => acc
  | idx :: rest, acc => pollLoop polls rest (pollSvnStep polls idx acc)

/-- Poll every satellite once, starting with no reports. -/
def pollAll (polls : Nat → PollResult) (s : LoopState) : LoopState × List Report :=
  pollLoop polls (List.range NUM_SVNS) (s, [])

/-- Which branch of the loop body a message took (mirrors the log severity:
`stale` → warn, `badBand` → error, `dummy` → debug, `processed` → feed). -/
inductive Outcome where
  | stale
  | badBand
  | dummy
  | processed
  deriving DecidableEq, Repr

/-- One iteration of the main loop on a message carrying an INAV word.
`none` models the aborts: `Wn::try_from(..).unwrap()` / week-sum overflow,
and `Svn::try_from(..).unwrap()` for an out-of-range satellite number. -/
def stepBody (polls : Nat → PollResult) (s : LoopState) (m : InavMessage) :
    Option (LoopState × Outcome × List Report) :=
  if msgWn m < 65536 then
    let tow := msgTow s.lastTowMod30 m
    let s1 := { s with lastTowMod30 := tow % 30 }
    let gst : Gst := { wn := msgWn m, tow := tow }
    let reject := match s.currentSubframe with
      | some current => gstLt (gstSubframe gst) current
      | none => false
    if reject then some (s1, Outcome.stale, [])
    else
      let s2 := { s1 with currentSubframe := some (gstSubframe gst) }
      if 1 ≤ m.gnss_sv ∧ m.gnss_sv ≤ NUM_SVNS then
        if m.sigid = 1 ∨ m.sigid = 5 then
          if (m.word.getD 0 0) >>> 2 = 63 then some (s2, Outcome.dummy, [])
          else
            let out := pollAll polls s2
            some (out.1, Outcome.processed, out.2)
        else some (s2, Outcome.badBand, [])
      else none
  else none

/-- Run the loop over a message sequence; each message comes with the
engine-oracle in force after it has been fed. -/
def runSteps (s : LoopState) :
    List (InavMessage × (Nat → PollResult)) → Option (LoopState × List Report)
  | [] => some (s, [])
  | (m, polls) :: rest =>
    match stepBody polls s m with
    | none => none
    | some out =>
      match runSteps out.1 rest with
      | none => none
      | some fin => some (fin.1, out.2.2 ++ fin.2)

/-- "Not later than" on optional watermarks: absent is below everything. -/
def optGstLe : Option Gst → Option Gst → Prop
  | none, _ => True
  | some _, none => False
  | some a, some b => gstLt b a = false

/-- The digest function the spec's step 3 names for each selector. -/
def specDigest : HashFunction → List Nat → List Nat
  | HashFunction.Sha256, msg => sha256 msg
  | HashFunction.Sha3_256, msg => sha3_256 msg
  | HashFunction.Reserved, _ => []

/-- A concrete zero-length key anchored at `{week 5, tow 30}` (witness data). -/
def kC2 : Key :=
  { data := List.replicate 32 0, size := 0, gst_subframe := { wn := 5, tow := 30 } }

/-- A concrete one-byte key `[0x07]` anchored at `{week 5, tow 30}` (witness data). -/
def kC3 : Key :=
  { data := padTo32 [7], size := 8, gst_subframe := { wn := 5, tow := 30 } }

/-- The key one derivation step produces from `kC3` under `testChain`. -/
def kC3result : Key :=
  { data := padTo32 [164], size := 8, gst_subframe := { wn := 5, tow := 0 } }

/-- A message on an unrecognized band (`sigid` 2) used as concrete input. -/
def cexMsg : InavMessage :=
  { gnss_wn := 0, gnss_tow := 60, gnss_sv := 1, sigid := 2, word := [0], osnma := none }

/-- The engine oracle that never returns any authenticated block. -/
def polls0 : Nat → PollResult := fun _ => { ced := none, timing := none }

/-- The loop state `stepBody polls0 initialState cexMsg` produces. -/
def cexOut : LoopState × Outcome × List Report :=
  ({ currentSubframe := some { wn := 0, tow := 60 }, lastTowMod30 := 0,
     cedCache := List.replicate NUM_SVNS none,
     timingCache := List.replicate NUM_SVNS none },
   Outcome.badBand, [])

/-- A per-index stability predicate: polling satellite `idx + 1` again would
change nothing and report nothing for either block kind. -/
def StableAt (polls : Nat → PollResult) (s : LoopState) (idx : Nat) : Prop :=
  cedPollStep (s.cedCache.getD idx none) (polls (idx + 1)).ced =
    (s.cedCache.getD idx none, false) ∧
  cedPollStep (s.timingCache.getD idx none) (polls (idx + 1)).timing =
    (s.timingCache.getD idx none, false)

/-- The key `Key.from_bitslice` builds from eight set bits at `{5, 30}`. -/
def kBits : Key :=
  { data := padTo32 [255], size := 8, gst_subframe := { wn := 5, tow := 30 } }

/-- A loop state whose watermark is at the boundary `{week 0, tow 60}`. -/
def sC5 : LoopState :=
  { currentSubframe := some { wn := 0, tow := 60 }, lastTowMod30 := 0,
    cedCache := List.replicate NUM_SVNS none,
    timingCache := List.replicate NUM_SVNS none }

/-- A message whose subframe boundary `{week 0, tow 0}` is stale w.r.t. `sC5`. -/
def mC5 : InavMessage :=
  { gnss_wn := 0, gnss_tow := 0, gnss_sv := 1, sigid := 1, word := [0], osnma := none }

/-! ## Sanity pins for the two hash embeddings (standard empty-input vectors) -/

example : sha256 [] =
    [227, 176, 196, 66, 152, 252, 28, 20, 154, 251, 244, 200, 153, 111, 185, 36,
     39, 174, 65, 228, 100, 155, 147, 76, 164, 149, 153, 27, 120, 82, 184, 85] := by
  decide

example : sha3_256 [] =
    [0xa7, 0xff, 0xc6, 0xf8, 0xbf, 0x1e, 0xd7, 0x66, 0x51, 0xc1, 0x47, 0x56,
     0xa0, 0x61, 0xd6, 0x62, 0xf5, 0x80, 0xff, 0x4d, 0xe4, 0x3b, 0x49, 0xfa,
     0x82, 0xd8, 0x0a, 0x4b, 0x80, 0xf8, 0x43, 0x4a] := by
  decide

/-! ## Claim C1 (corrected): the concrete TESLA test vector

The spec's concrete vector swaps the two keys: in the source's test,
`9542aa…` is the key anchored at TOW 120960 and deriving from it yields
`42b419…` anchored at TOW 120930 — not the other way around. -/

/-- C1, as stated, is false: deriving one step from the key `42b419…`
anchored at `{week 1176, tow 120960}` under `{SHA-256, alpha 0x25d3964da3a2}`
does not return the key `9542aa…` anchored at `{week 1176, tow 120930}`. -/
theorem C1_counterexample :
    (Key.from_slice keyBytesA { wn := 1176, tow := 120960 }).bind
        (fun k => k.one_way_function testChain) ≠
      Key.from_slice keyBytesB { wn := 1176, tow := 120930 } := by
  decide

/-- C1 amended: deriving one step from the 16-byte chain key `9542aa…`
anchored at `{week 1176, tow 120960}` under `{SHA-256, alpha 0x25d3964da3a2}`
returns exactly the 16-byte chain key `42b419…` anchored at
`{week 1176, tow 120930}`. -/
theorem C1_amended :
    (Key.from_slice keyBytesB { wn := 1176, tow := 120960 }).bind
        (fun k => k.one_way_function testChain) =
      Key.from_slice keyBytesA { wn := 1176, tow := 120930 } := by
  decide

/-! ## Claim C4: the TOW transport-artifact correction -/

/-- C4: on the normalized TOW, if `tow % 30 == 15` and the previous recorded
TOW mod 30 was ≥ 19, exactly 14 seconds are added and the result stays below
604800 (no week rollover); otherwise the TOW is unchanged. -/
theorem C4_tow_correction (rawTow lastTowMod30 : Nat) :
    (rawTow % 604800 % 30 = 15 ∧ 19 ≤ lastTowMod30 →
      correctTow lastTowMod30 (rawTow % 604800) = rawTow % 604800 + 14 ∧
        correctTow lastTowMod30 (rawTow % 604800) < 604800) ∧
    (¬(rawTow % 604800 % 30 = 15 ∧ 19 ≤ lastTowMod30) →
      correctTow lastTowMod30 (rawTow % 604800) = rawTow % 604800) := by
  unfold correctTow
  constructor
  · intro h
    rw [if_pos h]
    refine ⟨rfl, ?_⟩
    omega
  · intro h
    rw [if_neg h]

/-- Witness for C4 at raw TOW 604815 (normalizing to 15) and history 29. -/
theorem C4_tow_correction_witness :
    correctTow 29 (604815 % 604800) = 604815 % 604800 + 14 ∧
      correctTow 29 (604815 % 604800) < 604800 :=
  (C4_tow_correction 604815 29).1 (by decide)

/-! ## Claim C8: the Reserved hash selector never yields a key -/

/-- C8: for every chain key and every alpha, derivation under the `Reserved`
hash selector aborts (returns no key). -/
theorem C8_reserved_aborts (k : Key) (alpha : Nat) :
    k.one_way_function { hash := HashFunction.Reserved, alpha := alpha } = none := by
  unfold Key.one_way_function
  by_cases h : k.size / 8 ≤ MAX_KEY_BYTES <;> simp [h, ite_self]

/-! ## Claim C7 (corrected): bit-field extraction

The extractor accumulates into a `u32`, so a descriptor spanning more than
32 bits is truncated mod `2 ^ 32`; the claim holds once the range is
restricted to at most 32 bits (every descriptor in the static table is). -/

/-- `x &&& 1` is at most 1. -/
theorem and_one_le_one (x : Nat) : x &&& 1 ≤ 1 :=
  Nat.le_of_lt_succ (Nat.and_lt_two_pow x (by decide : (1 : Nat) < 2 ^ 1))

/-- OR-ing a low bit into a doubled value is addition. -/
theorem two_mul_lor_bit (v b : Nat) (hb : b ≤ 1) : 2 * v ||| b = 2 * v + b := by
  interval_cases b
  · simp
  · have h1 : (2 * v : Nat) = Nat.bit false v := by simp [Nat.bit]
    have h2 : (1 : Nat) = Nat.bit true 0 := by simp [Nat.bit]
    rw [h1, h2, Nat.lor_bit]
    simp [Nat.bit]

/-- The truncating and the unbounded accumulators agree for up to 32 bits,
and the unbounded value is below `2 ^ n` after `n` bits. -/
theorem extract_accum_agree (data : List Nat) (start : Nat) :
    ∀ n, n ≤ 32 →
      (List.range n).foldl
          (fun value j => ((value <<< 1) % M32) ||| bitAt data (start + j)) 0 =
        (List.range n).foldl (fun value j => 2 * value + bitAt data (start + j)) 0 ∧
      (List.range n).foldl (fun value j => 2 * value + bitAt data (start + j)) 0 < 2 ^ n := by
  intro n
  induction n with
  | zero => simp
  | succ n ih =>
    intro hn
    obtain ⟨he, hb⟩ := ih (by omega)
    rw [List.range_succ, List.foldl_append, List.foldl_append]
    simp only [List.foldl_cons, List.foldl_nil]
    rw [he]
    set S := (List.range n).foldl (fun value j => 2 * value + bitAt data (start + j)) 0
    have hbit : bitAt data (start + n) ≤ 1 := and_one_le_one _
    have hSlt : 2 * S < M32 := by
      have : (2 : Nat) ^ (n + 1) ≤ 2 ^ 32 := Nat.pow_le_pow_right (by decide) hn
      have h2 : 2 ^ (n + 1) = 2 * 2 ^ n := by ring
      unfold M32
      omega
    have hsh : S <<< 1 = 2 * S := by
      rw [Nat.shiftLeft_eq]
      ring
    constructor
    · rw [hsh, Nat.mod_eq_of_lt hSlt, two_mul_lor_bit _ _ hbit]
    · have h2 : 2 ^ (n + 1) = 2 * 2 ^ n := by ring
      omega

/-- C7, as stated, is false for a descriptor wider than 32 bits: over the
buffer `[255, 255, 255, 255, 255]`, the 33-bit descriptor `(0, 32)` returns
`2 ^ 32 - 1`, not the MSB-first integer `2 ^ 33 - 1`. -/
theorem C7_counterexample :
    extract_bits_range [255, 255, 255, 255, 255] 0 32 ≠
      specBitsRange [255, 255, 255, 255, 255] 0 32 := by
  decide

/-- C7 amended: for every buffer and every descriptor whose inclusive range
spans at most 32 bits and lies within the buffer, the extractor returns the
unsigned integer formed by reading those bits MSB-first (bit `i` from byte
`i / 8` at position `7 - i % 8`); in particular the table entry for a
descriptor `(name, 11, 24)` is that 14-bit MSB-first integer. -/
theorem C7_amended (data : List Nat) (start stop : Nat)
    (hw : stop + 1 - start ≤ 32) :
    extract_bits_range data start stop = specBitsRange data start stop ∧
      (extract_all_bits data).lookup "T0E" =
        some (specBitsRange data 11 24) := by
  refine ⟨(extract_accum_agree data start _ hw).1, ?_⟩
  have h14 := (extract_accum_agree data 11 (24 + 1 - 11) (by decide)).1
  simp only [extract_all_bits, List.lookup]
  rw [show extract_bits_range data 11 24 = specBitsRange data 11 24 from h14]
  rfl

/-- Witness for C7 on the descriptor `(T0E, 11, 24)` over a concrete buffer. -/
theorem C7_amended_witness :
    extract_bits_range [0xAB, 0xCD, 0xEF, 0x12] 11 24 =
        specBitsRange [0xAB, 0xCD, 0xEF, 0x12] 11 24 ∧
      (extract_all_bits [0xAB, 0xCD, 0xEF, 0x12]).lookup "T0E" =
        some (specBitsRange [0xAB, 0xCD, 0xEF, 0x12] 11 24) :=
  C7_amended [0xAB, 0xCD, 0xEF, 0x12] 11 24 (by decide)

/-! ## Claim C2: one derivation step moves the anchor back exactly 30 s -/

/-- Stepping back one subframe subtracts exactly 30 from the total-second
value and preserves 30-alignment, provided at least 30 s are available. -/
theorem gstVal_prevSubframe (g : Gst) (h30 : g.tow % 30 = 0)
    (h : 30 ≤ gstVal g) :
    gstVal (prevSubframe g) = gstVal g - 30 ∧ (prevSubframe g).tow % 30 = 0 := by
  obtain ⟨wn, tow⟩ := g
  have h30x : tow % 30 = 0 := h30
  clear h30
  rw [show gstVal ⟨wn, tow⟩ = wn * 604800 + tow from rfl] at h ⊢
  by_cases h0 : tow = 0
  · have h1 : prevSubframe ⟨wn, tow⟩ = ⟨wn - 1, 7 * 24 * 3600 - 30⟩ := by
      unfold prevSubframe
      rw [if_pos h0, if_pos h0]
    rw [h1, show gstVal ⟨wn - 1, 7 * 24 * 3600 - 30⟩ =
      (wn - 1) * 604800 + (7 * 24 * 3600 - 30) from rfl,
      show (Gst.mk (wn - 1) (7 * 24 * 3600 - 30)).tow = 7 * 24 * 3600 - 30 from rfl]
    exact ⟨by omega, by omega⟩
  · have h1 : prevSubframe ⟨wn, tow⟩ = ⟨wn, tow - 30⟩ := by
      unfold prevSubframe
      rw [if_neg h0, if_neg h0]
    rw [h1, show gstVal ⟨wn, tow - 30⟩ = wn * 604800 + (tow - 30) from rfl,
      show (Gst.mk wn (tow - 30)).tow = tow - 30 from rfl]
    exact ⟨by omega, by omega⟩

/-- A successful derivation step keeps the bit length and moves the anchor
to the previous subframe. -/
theorem owf_fields (k : Key) (p : ChainParameters) (k1 : Key)
    (hstep : k.one_way_function p = some k1) :
    k1.gst_subframe = prevSubframe k.gst_subframe ∧ k1.size = k.size := by
  simp only [Key.one_way_function] at hstep
  split at hstep
  · split at hstep
    · simp at hstep
    · split at hstep
      · obtain rfl := Option.some.inj hstep
        exact ⟨rfl, rfl⟩
      · obtain rfl := Option.some.inj hstep
        exact ⟨rfl, rfl⟩
      · simp at hstep
  · simp at hstep

/-- A derivation step succeeds whenever the hash selector is usable, the
size invariant holds, and the anchor is not the very origin of time. -/
theorem owf_step (k : Key) (p : ChainParameters)
    (hh : p.hash ≠ HashFunction.Reserved) (hsz : k.size ≤ 256)
    (hnz : ¬(k.gst_subframe.tow = 0 ∧ k.gst_subframe.wn = 0)) :
    ∃ k1, k.one_way_function p = some k1 ∧ k1.size = k.size ∧
      k1.gst_subframe = prevSubframe k.gst_subframe := by
  have h32 : k.size / 8 ≤ MAX_KEY_BYTES := by
    unfold MAX_KEY_BYTES
    omega
  obtain ⟨hash, alpha⟩ := p
  cases hash with
  | Reserved => exact absurd rfl hh
  | Sha256 =>
    exact ⟨{ data := padTo32 ((sha256 (owfBuffer k alpha)).take (k.size / 8)),
             size := k.size, gst_subframe := prevSubframe k.gst_subframe },
      by simp [Key.one_way_function, h32, hnz], rfl, rfl⟩
  | Sha3_256 =>
    exact ⟨{ data := padTo32 ((sha3_256 (owfBuffer k alpha)).take (k.size / 8)),
             size := k.size, gst_subframe := prevSubframe k.gst_subframe },
      by simp [Key.one_way_function, h32, hnz], rfl, rfl⟩

/-- Iterating the derivation `n` times moves the anchor back exactly
`30 · n` seconds (with week borrow handled by the total-second value). -/
theorem owfIterate_anchor (p : ChainParameters)
    (hh : p.hash ≠ HashFunction.Reserved) :
    ∀ (n : Nat) (k : Key), k.gst_subframe.tow % 30 = 0 → k.size ≤ 256 →
      30 * n ≤ gstVal k.gst_subframe →
      ∃ kn, owfIterate p n k = some kn ∧
        gstVal kn.gst_subframe = gstVal k.gst_subframe - 30 * n ∧
        kn.gst_subframe.tow % 30 = 0 ∧ kn.size = k.size := by
  intro n
  induction n with
  | zero =>
    intro k h30 _ _
    exact ⟨k, rfl, by omega, h30, rfl⟩
  | succ n ih =>
    intro k h30 hsz hle
    have h30g : 30 ≤ gstVal k.gst_subframe := by omega
    have hnz : ¬(k.gst_subframe.tow = 0 ∧ k.gst_subframe.wn = 0) := by
      rintro ⟨h1, h2⟩
      unfold gstVal at h30g
      omega
    obtain ⟨k1, hstep, hsize, hanchor⟩ := owf_step k p hh hsz hnz
    obtain ⟨hval, h30k⟩ := gstVal_prevSubframe k.gst_subframe h30 h30g
    obtain ⟨kn, hit, hv, h3, hs⟩ := ih k1 (by rw [hanchor]; exact h30k)
      (by rw [hsize]; exact hsz) (by rw [hanchor, hval]; omega)
    refine ⟨kn, ?_, ?_, h3, by rw [hs, hsize]⟩
    · show owfIterate p (n + 1) k = some kn
      unfold owfIterate
      rw [hstep]
      exact hit
    · rw [hv, hanchor, hval]
      omega

/-- C2: for a 30-aligned anchor, a successful derivation step lands on the
claim's previous subframe (borrowing a week at `tow = 0`), and iterating the
derivation `n` times moves the anchor exactly `30 · n` seconds earlier. -/
theorem C2_anchor_step (k : Key) (p : ChainParameters)
    (h30 : k.gst_subframe.tow % 30 = 0)
    (hh : p.hash ≠ HashFunction.Reserved) (hsz : k.size ≤ 256) :
    (∀ k1, k.one_way_function p = some k1 →
      k1.gst_subframe =
        if k.gst_subframe.tow = 0 then
          { wn := k.gst_subframe.wn - 1, tow := 604770 }
        else
          { wn := k.gst_subframe.wn, tow := k.gst_subframe.tow - 30 }) ∧
    (∀ n, 30 * n ≤ gstVal k.gst_subframe →
      ∃ kn, owfIterate p n k = some kn ∧
        gstVal kn.gst_subframe = gstVal k.gst_subframe - 30 * n ∧
        kn.gst_subframe.tow % 30 = 0) := by
  constructor
  · intro k1 hstep
    rw [(owf_fields k p k1 hstep).1]
    unfold prevSubframe
    by_cases h0 : k.gst_subframe.tow = 0
    · simp [h0]
    · simp [h0]
  · intro n hn
    obtain ⟨kn, hit, hv, hmod, _⟩ := owfIterate_anchor p hh n k h30 hsz hn
    exact ⟨kn, hit, hv, hmod⟩

/-- Witness for C2 on a concrete key anchored at `{week 5, tow 30}`. -/
theorem C2_anchor_step_witness :
    (∀ k1, kC2.one_way_function testChain = some k1 →
      k1.gst_subframe =
        if kC2.gst_subframe.tow = 0 then
          { wn := kC2.gst_subframe.wn - 1, tow := 604770 }
        else
          { wn := kC2.gst_subframe.wn, tow := kC2.gst_subframe.tow - 30 }) ∧
    (∀ n, 30 * n ≤ gstVal kC2.gst_subframe →
      ∃ kn, owfIterate testChain n kC2 = some kn ∧
        gstVal kn.gst_subframe = gstVal kC2.gst_subframe - 30 * n ∧
        kn.gst_subframe.tow % 30 = 0) :=
  C2_anchor_step kC2 testChain (by decide) (by decide) (by decide)

/-! ## Claim C3: the hashed buffer and the truncated digest -/

/-- The 4 GST bytes written bit-wise by the source equal the spec's 4-byte
big-endian encoding of 12 bits of week and 20 bits of time-of-week. -/
theorem owfGstBytes_eq (g : Gst) :
    owfGstBytes g = beBytes 4 (g.wn % 4096 * 1048576 + g.tow % 1048576) := by
  have h : ∀ v : Nat, beBytes 4 v =
      [v / 16777216 % 256, v / 65536 % 256, v / 256 % 256, v / 1 % 256] :=
    fun v => rfl
  rw [h]
  simp only [owfGstBytes, List.cons.injEq, and_true]
  refine ⟨?_, ?_, ?_, ?_⟩ <;> omega

/-- Dropping the two high bytes of `alpha.to_be_bytes()` is the 6-byte
big-endian encoding of the low 48 bits of `alpha`. -/
theorem alpha_bytes_eq (a : Nat) :
    (beBytes 8 a).drop 2 = beBytes 6 (a % 281474976710656) := by
  have h : (beBytes 8 a).drop 2 =
      [a / 1099511627776 % 256, a / 4294967296 % 256, a / 16777216 % 256,
       a / 65536 % 256, a / 256 % 256, a / 1 % 256] := rfl
  have h6 : beBytes 6 (a % 281474976710656) =
      [(a % 281474976710656) / 1099511627776 % 256,
       (a % 281474976710656) / 4294967296 % 256,
       (a % 281474976710656) / 16777216 % 256,
       (a % 281474976710656) / 65536 % 256,
       (a % 281474976710656) / 256 % 256,
       (a % 281474976710656) / 1 % 256] := rfl
  rw [h, h6]
  simp only [List.cons.injEq, and_true]
  refine ⟨?_, ?_, ?_, ?_, ?_, ?_⟩ <;> omega

/-- `beBytes` produces exactly `n` bytes. -/
theorem beBytes_length : ∀ (n w : Nat), (beBytes n w).length = n
  | 0, _ => rfl
  | n + 1, w => by simp [beBytes, beBytes_length n]

/-- `wordsToBytes` produces 4 bytes per word. -/
theorem wordsToBytes_length (ws : List Nat) :
    (wordsToBytes ws).length = 4 * ws.length := by
  induction ws with
  | nil => rfl
  | cons w rest ih =>
    simp [wordsToBytes, beBytes_length, ih]
    omega

/-- A compression round preserves the state length. -/
theorem compress1_length (hs : List Nat) (kw : Nat) :
    (compress1 hs kw).length = hs.length := by
  unfold compress1
  split
  · simp_all
  · rfl

/-- The 64-round fold preserves the state length. -/
theorem foldl_compress1_length (l : List (Nat × Nat)) (hs : List Nat) :
    (l.foldl (fun st kw => compress1 st ((kw.1 + kw.2) % M32)) hs).length =
      hs.length := by
  induction l generalizing hs with
  | nil => rfl
  | cons x rest ih => simp [List.foldl_cons, ih, compress1_length]

/-- One block of compression preserves the state length. -/
theorem sha256Block_length (hs b : List Nat) :
    (sha256Block hs b).length = hs.length := by
  unfold sha256Block
  simp [List.length_zipWith, foldl_compress1_length]

/-- Folding over all blocks preserves the state length. -/
theorem sha256Blocks_length (blocks : List (List Nat)) (hs : List Nat) :
    (sha256Blocks hs blocks).length = hs.length := by
  unfold sha256Blocks
  induction blocks generalizing hs with
  | nil => rfl
  | cons b rest ih => simp [List.foldl_cons, ih, sha256Block_length]

/-- A SHA-256 digest is 32 bytes. -/
theorem sha256_length (msg : List Nat) : (sha256 msg).length = 32 := by
  unfold sha256
  rw [wordsToBytes_length, sha256Blocks_length]
  rfl

/-- `leBytes` produces exactly `n` bytes. -/
theorem leBytes_length : ∀ (n w : Nat), (leBytes n w).length = n
  | 0, _ => rfl
  | n + 1, w => by simp [leBytes, leBytes_length n]

/-- A SHA3-256 digest is 32 bytes. -/
theorem sha3_256_length (msg : List Nat) : (sha3_256 msg).length = 32 := by
  unfold sha3_256
  simp [leBytes_length]

/-- The padded backing array is always 32 bytes. -/
theorem padTo32_length (l : List Nat) : (padTo32 l).length = 32 := by
  simp [padTo32]
  omega

/-- Replicated zeros read as zero at any index. -/
theorem getD_replicate_zero (r i : Nat) :
    (List.replicate r (0 : Nat)).getD i 0 = 0 := by
  rcases Nat.lt_or_ge i r with hi | hi
  · rw [List.getD_eq_getElem _ _ (by simpa using hi)]
    simp
  · exact List.getD_eq_default _ _ (by simpa using hi)

/-- Beyond the logical bytes, the padded backing array is zero. -/
theorem padTo32_getD (l : List Nat) (i : Nat) (h : l.length ≤ i) :
    (padTo32 l).getD i 0 = 0 := by
  rcases Nat.lt_or_ge i 32 with hi | hi
  · unfold padTo32
    rw [List.getD_append_right _ _ _ _ (by simp [List.length_take]; omega)]
    exact getD_replicate_zero _ _
  · exact List.getD_eq_default _ _ (by rw [padTo32_length]; exact hi)

/-- Taking back the logical prefix of the padded backing array. -/
theorem padTo32_take (l : List Nat) (h32 : l.length ≤ 32) :
    (padTo32 l).take l.length = l := by
  unfold padTo32
  rw [List.take_of_length_le h32]
  exact List.take_left l _

/-- C3: a successful derivation hashes exactly the key's `bit_length / 8`
bytes followed by the 4-byte big-endian previous subframe (12 bits week,
20 bits TOW) followed by the low 48 bits of alpha as 6 big-endian bytes;
the result's logical bytes are the digest truncated to the key's byte
length, and it keeps the bit length and is anchored at the previous
subframe. -/
theorem C3_hash_buffer (k : Key) (p : ChainParameters) (k1 : Key)
    (h8 : k.size % 8 = 0) (hsz : k.size ≤ 256)
    (hstep : k.one_way_function p = some k1) :
    owfBuffer k p.alpha =
      k.data.take (k.size / 8) ++
        beBytes 4 ((prevSubframe k.gst_subframe).wn % 4096 * 1048576 +
          (prevSubframe k.gst_subframe).tow % 1048576) ++
        beBytes 6 (p.alpha % 281474976710656) ∧
    k1.data.take (k1.size / 8) =
      (specDigest p.hash (owfBuffer k p.alpha)).take (k.size / 8) ∧
    k1.size = k.size ∧
    k1.gst_subframe = prevSubframe k.gst_subframe := by
  obtain ⟨hgst, hsize⟩ := owf_fields k p k1 hstep
  refine ⟨?_, ?_, hsize, hgst⟩
  · unfold owfBuffer
    rw [owfGstBytes_eq, alpha_bytes_eq]
  · rw [hsize]
    simp only [Key.one_way_function] at hstep
    split at hstep
    case isFalse => simp at hstep
    case isTrue h32m =>
      split at hstep
      case isTrue => simp at hstep
      case isFalse =>
        have hsz32 : k.size / 8 ≤ 32 := by
          unfold MAX_KEY_BYTES at h32m
          exact h32m
        split at hstep
        case h_1 hhash =>
          obtain rfl := Option.some.inj hstep
          rw [hhash]
          simp only [specDigest]
          have hXlen : ((sha256 (owfBuffer k p.alpha)).take (k.size / 8)).length =
              k.size / 8 := by
            rw [List.length_take, sha256_length]
            omega
          calc (padTo32 ((sha256 (owfBuffer k p.alpha)).take (k.size / 8))).take
                  (k.size / 8)
              = (padTo32 ((sha256 (owfBuffer k p.alpha)).take (k.size / 8))).take
                  ((sha256 (owfBuffer k p.alpha)).take (k.size / 8)).length := by
                rw [hXlen]
            _ = (sha256 (owfBuffer k p.alpha)).take (k.size / 8) :=
                padTo32_take _ (by rw [hXlen]; omega)
        case h_2 hhash =>
          obtain rfl := Option.some.inj hstep
          rw [hhash]
          simp only [specDigest]
          have hXlen : ((sha3_256 (owfBuffer k p.alpha)).take (k.size / 8)).length =
              k.size / 8 := by
            rw [List.length_take, sha3_256_length]
            omega
          calc (padTo32 ((sha3_256 (owfBuffer k p.alpha)).take (k.size / 8))).take
                  (k.size / 8)
              = (padTo32 ((sha3_256 (owfBuffer k p.alpha)).take (k.size / 8))).take
                  ((sha3_256 (owfBuffer k p.alpha)).take (k.size / 8)).length := by
                rw [hXlen]
            _ = (sha3_256 (owfBuffer k p.alpha)).take (k.size / 8) :=
                padTo32_take _ (by rw [hXlen]; omega)
        case h_3 => simp at hstep

/-- Witness for C3 on the concrete one-byte key `kC3`. -/
theorem C3_hash_buffer_witness :
    owfBuffer kC3 testChain.alpha =
      kC3.data.take (kC3.size / 8) ++
        beBytes 4 ((prevSubframe kC3.gst_subframe).wn % 4096 * 1048576 +
          (prevSubframe kC3.gst_subframe).tow % 1048576) ++
        beBytes 6 (testChain.alpha % 281474976710656) ∧
    kC3result.data.take (kC3result.size / 8) =
      (specDigest testChain.hash (owfBuffer kC3 testChain.alpha)).take
        (kC3.size / 8) ∧
    kC3result.size = kC3.size ∧
    kC3result.gst_subframe = prevSubframe kC3.gst_subframe :=
  C3_hash_buffer kC3 testChain kC3result (by decide) (by decide) (by decide)

/-! ## Claims C5 and C6: the subframe watermark and the band check -/

/-- The GST order never holds reflexively. -/
theorem gstLt_irrefl (a : Gst) : gstLt a a = false := by
  simp only [gstLt, decide_eq_false_iff_not]
  omega

/-- `optGstLe` is reflexive. -/
theorem optGstLe_refl (o : Option Gst) : optGstLe o o := by
  cases o with
  | none => trivial
  | some a => exact gstLt_irrefl a

/-- `optGstLe` is transitive. -/
theorem optGstLe_trans (a b c : Option Gst)
    (h1 : optGstLe a b) (h2 : optGstLe b c) : optGstLe a c := by
  cases a with
  | none => trivial
  | some x =>
    cases b with
    | none => exact absurd h1 (by simp [optGstLe])
    | some y =>
      cases c with
      | none => exact absurd h2 (by simp [optGstLe])
      | some z =>
        simp only [optGstLe, gstLt, decide_eq_false_iff_not] at *
        omega

/-- The polling loop touches only the two caches: the watermark, the TOW
history, and the cache lengths are preserved. -/
theorem pollLoop_preserves (polls : Nat → PollResult) (L : List Nat) :
    ∀ acc : LoopState × List Report,
      (pollLoop polls L acc).1.currentSubframe = acc.1.currentSubframe ∧
      (pollLoop polls L acc).1.lastTowMod30 = acc.1.lastTowMod30 ∧
      (pollLoop polls L acc).1.cedCache.length = acc.1.cedCache.length ∧
      (pollLoop polls L acc).1.timingCache.length = acc.1.timingCache.length := by
  induction L with
  | nil => exact fun acc => ⟨rfl, rfl, rfl, rfl⟩
  | cons idx rest ih =>
    intro acc
    have hl : pollLoop polls (idx :: rest) acc =
        pollLoop polls rest (pollSvnStep polls idx acc) := rfl
    obtain ⟨h1, h2, h3, h4⟩ := ih (pollSvnStep polls idx acc)
    have p1 : (pollSvnStep polls idx acc).1.currentSubframe =
        acc.1.currentSubframe := by
      simp [pollSvnStep]
    have p2 : (pollSvnStep polls idx acc).1.lastTowMod30 = acc.1.lastTowMod30 := by
      simp [pollSvnStep]
    have p3 : (pollSvnStep polls idx acc).1.cedCache.length =
        acc.1.cedCache.length := by
      simp [pollSvnStep, List.length_set]
    have p4 : (pollSvnStep polls idx acc).1.timingCache.length =
        acc.1.timingCache.length := by
      simp [pollSvnStep, List.length_set]
    rw [hl]
    exact ⟨h1.trans p1, h2.trans p2, h3.trans p3, h4.trans p4⟩

/-- Complete case analysis of one loop iteration that returned a result. -/
theorem stepBody_shape (polls : Nat → PollResult) (s : LoopState)
    (m : InavMessage) (out : LoopState × Outcome × List Report)
    (hstep : stepBody polls s m = some out) :
    (∃ B, s.currentSubframe = some B ∧
      gstLt (gstSubframe (msgGst s.lastTowMod30 m)) B = true ∧
      out = (staleState s m, Outcome.stale, [])) ∨
    ((∀ B, s.currentSubframe = some B →
        gstLt (gstSubframe (msgGst s.lastTowMod30 m)) B = false) ∧
     ((¬(m.sigid = 1 ∨ m.sigid = 5) ∧
       out = (acceptState s m, Outcome.badBand, [])) ∨
      ((m.sigid = 1 ∨ m.sigid = 5) ∧ (m.word.getD 0 0) >>> 2 = 63 ∧
       out = (acceptState s m, Outcome.dummy, [])) ∨
      ((m.sigid = 1 ∨ m.sigid = 5) ∧ (m.word.getD 0 0) >>> 2 ≠ 63 ∧
       out = ((pollAll polls (acceptState s m)).1, Outcome.processed,
              (pollAll polls (acceptState s m)).2)))) := by
  simp only [stepBody, msgGst, msgTow, staleState, acceptState] at hstep ⊢
  split at hstep
  case isFalse => simp at hstep
  case isTrue hwn =>
    split at hstep
    case isTrue hrej =>
      obtain rfl := Option.some.inj hstep
      left
      split at hrej
      case h_1 B hB => exact ⟨B, hB, hrej, rfl⟩
      case h_2 => simp at hrej
    case isFalse hrej =>
      right
      have hacc : ∀ B, s.currentSubframe = some B →
          gstLt (gstSubframe
            { wn := msgWn m, tow := correctTow s.lastTowMod30 (m.gnss_tow % 604800) })
            B = false := by
        intro B hB
        rw [hB] at hrej
        simpa using hrej
      refine ⟨hacc, ?_⟩
      split at hstep
      case isFalse => simp at hstep
      case isTrue hsv =>
        split at hstep
        case isFalse hband =>
          obtain rfl := Option.some.inj hstep
          exact Or.inl ⟨hband, rfl⟩
        case isTrue hband =>
          split at hstep
          case isTrue hdummy =>
            obtain rfl := Option.some.inj hstep
            exact Or.inr (Or.inl ⟨hband, hdummy, rfl⟩)
          case isFalse hdummy =>
            obtain rfl := Option.some.inj hstep
            exact Or.inr (Or.inr ⟨hband, hdummy, rfl⟩)

/-- One successful iteration never moves the watermark backward. -/
theorem stepBody_mono (polls : Nat → PollResult) (s : LoopState)
    (m : InavMessage) (out : LoopState × Outcome × List Report)
    (hstep : stepBody polls s m = some out) :
    optGstLe s.currentSubframe out.1.currentSubframe := by
  rcases stepBody_shape polls s m out hstep with
    ⟨B, hB, _, rfl⟩ | ⟨hacc, hbr⟩
  · rw [show (staleState s m, Outcome.stale, ([] : List Report)).1.currentSubframe
        = s.currentSubframe from rfl, hB]
    exact gstLt_irrefl B
  · have hcur : out.1.currentSubframe =
        some (gstSubframe (msgGst s.lastTowMod30 m)) := by
      rcases hbr with ⟨_, rfl⟩ | ⟨_, _, rfl⟩ | ⟨_, _, rfl⟩
      · rfl
      · rfl
      · exact (pollLoop_preserves polls (List.range NUM_SVNS) _).1
    rw [hcur]
    cases hB : s.currentSubframe with
    | none => trivial
    | some B => exact hacc B hB

/-- Across a whole run, the watermark never moves backward. -/
theorem runSteps_mono :
    ∀ (msgs : List (InavMessage × (Nat → PollResult))) (s s' : LoopState)
      (reps : List Report), runSteps s msgs = some (s', reps) →
      optGstLe s.currentSubframe s'.currentSubframe := by
  intro msgs
  induction msgs with
  | nil =>
    intro s s' reps h
    have h2 : some (s, ([] : List Report)) = some (s', reps) := h
    obtain ⟨rfl, rfl⟩ := Prod.mk.injEq .. ▸ Option.some.inj h2
    exact optGstLe_refl _
  | cons p rest ih =>
    intro s s' reps h
    obtain ⟨m, polls⟩ := p
    simp only [runSteps] at h
    split at h
    case h_1 => simp at h
    case h_2 out hout =>
      split at h
      case h_1 => simp at h
      case h_2 fin hfin =>
        obtain ⟨h1, _⟩ := Prod.mk.injEq .. ▸ Option.some.inj h
        rw [← h1]
        exact optGstLe_trans _ _ _ (stepBody_mono polls s m out hout)
          (ih out.1 fin.1 fin.2 hfin)

/-- C5: with the watermark at `B`, a word whose (corrected) boundary is
strictly earlier is rejected — state and caches untouched beyond the TOW
history, no report, regardless of satellite; any other word is accepted and
the watermark becomes the word's boundary (never earlier than `B`); over any
run the watermark never moves backward. -/
theorem C5_monotonic (polls : Nat → PollResult) (s : LoopState)
    (m : InavMessage) (B : Gst)
    (msgs : List (InavMessage × (Nat → PollResult)))
    (s' : LoopState) (reps : List Report) :
    (s.currentSubframe = some B →
      gstLt (gstSubframe (msgGst s.lastTowMod30 m)) B = true →
      ∀ out, stepBody polls s m = some out →
        out.2.1 = Outcome.stale ∧ out.1.currentSubframe = some B ∧
          out.1.cedCache = s.cedCache ∧ out.1.timingCache = s.timingCache ∧
          out.2.2 = []) ∧
    (s.currentSubframe = some B →
      gstLt (gstSubframe (msgGst s.lastTowMod30 m)) B = false →
      ∀ out, stepBody polls s m = some out →
        out.1.currentSubframe = some (gstSubframe (msgGst s.lastTowMod30 m)) ∧
          optGstLe (some B) out.1.currentSubframe) ∧
    (runSteps s msgs = some (s', reps) →
      optGstLe s.currentSubframe s'.currentSubframe) := by
  refine ⟨?_, ?_, fun h => runSteps_mono msgs s s' reps h⟩
  · intro hB hlt out hstep
    rcases stepBody_shape polls s m out hstep with
      ⟨B2, hB2, _, rfl⟩ | ⟨hacc, _⟩
    · rw [hB] at hB2
      obtain rfl := Option.some.inj hB2
      exact ⟨rfl, hB, rfl, rfl, rfl⟩
    · rw [hacc B hB] at hlt
      simp at hlt
  · intro hB hge out hstep
    rcases stepBody_shape polls s m out hstep with
      ⟨B2, hB2, hlt, rfl⟩ | ⟨_, hbr⟩
    · rw [hB] at hB2
      obtain rfl := Option.some.inj hB2
      rw [hlt] at hge
      simp at hge
    · have hcur : out.1.currentSubframe =
          some (gstSubframe (msgGst s.lastTowMod30 m)) := by
        rcases hbr with ⟨_, rfl⟩ | ⟨_, _, rfl⟩ | ⟨_, _, rfl⟩
        · rfl
        · rfl
        · exact (pollLoop_preserves polls (List.range NUM_SVNS) _).1
      rw [hcur]
      exact ⟨rfl, hge⟩

/-- Witness for C5: a stale word (boundary `{0, 0}` against watermark
`{0, 60}`), plus an empty run. -/
theorem C5_monotonic_witness :
    (sC5.currentSubframe = some { wn := 0, tow := 60 } →
      gstLt (gstSubframe (msgGst sC5.lastTowMod30 mC5)) { wn := 0, tow := 60 } = true →
      ∀ out, stepBody polls0 sC5 mC5 = some out →
        out.2.1 = Outcome.stale ∧
          out.1.currentSubframe = some { wn := 0, tow := 60 } ∧
          out.1.cedCache = sC5.cedCache ∧ out.1.timingCache = sC5.timingCache ∧
          out.2.2 = []) ∧
    (sC5.currentSubframe = some { wn := 0, tow := 60 } →
      gstLt (gstSubframe (msgGst sC5.lastTowMod30 mC5)) { wn := 0, tow := 60 } = false →
      ∀ out, stepBody polls0 sC5 mC5 = some out →
        out.1.currentSubframe = some (gstSubframe (msgGst sC5.lastTowMod30 mC5)) ∧
          optGstLe (some { wn := 0, tow := 60 }) out.1.currentSubframe) ∧
    (runSteps sC5 [] = some (sC5, []) →
      optGstLe sC5.currentSubframe sC5.currentSubframe) :=
  C5_monotonic polls0 sC5 mC5 { wn := 0, tow := 60 } [] sC5 []

/-- C6, as stated, is false: a message on unrecognized band 2 is skipped
with the bad-band outcome, yet the watermark is mutated (it moves from
`none` to the word's boundary before the band check). -/
theorem C6_counterexample :
    (stepBody polls0 initialState cexMsg).map (fun out => out.1.currentSubframe) ≠
      some initialState.currentSubframe ∧
    (stepBody polls0 initialState cexMsg).map (fun out => out.2.1) =
      some Outcome.badBand := by
  constructor
  · decide
  · decide

/-- C6 amended: a word on an unrecognized band (with an in-range satellite
number, so the loop survives to the band check) is either dropped as stale
or skipped with the error diagnostic; it is never fed to the engine — no
report is emitted and the per-satellite caches are untouched — but the TOW
history is updated, and when it passes the subframe check the watermark
advances to its boundary before the band check. -/
theorem C6_amended (polls : Nat → PollResult) (s : LoopState)
    (m : InavMessage) (out : LoopState × Outcome × List Report)
    (hband : m.sigid ≠ 1 ∧ m.sigid ≠ 5)
    (hstep : stepBody polls s m = some out) :
    (out.2.1 = Outcome.stale ∨ out.2.1 = Outcome.badBand) ∧
    out.2.2 = [] ∧
    out.1.cedCache = s.cedCache ∧ out.1.timingCache = s.timingCache ∧
    (out.2.1 = Outcome.badBand →
      out.1.currentSubframe = some (gstSubframe (msgGst s.lastTowMod30 m)) ∧
        out.1.lastTowMod30 = msgTow s.lastTowMod30 m % 30) := by
  rcases stepBody_shape polls s m out hstep with
    ⟨B, hB, hlt, rfl⟩ | ⟨hacc, hbr⟩
  · exact ⟨Or.inl rfl, rfl, rfl, rfl, fun h => by simp at h⟩
  · rcases hbr with ⟨hb, rfl⟩ | ⟨hb, _, rfl⟩ | ⟨hb, _, rfl⟩
    · exact ⟨Or.inr rfl, rfl, rfl, rfl, fun _ => ⟨rfl, rfl⟩⟩
    · rcases hb with h1 | h5
      · exact absurd h1 hband.1
      · exact absurd h5 hband.2
    · rcases hb with h1 | h5
      · exact absurd h1 hband.1
      · exact absurd h5 hband.2

/-- Witness for C6 at the concrete bad-band message `cexMsg`. -/
theorem C6_amended_witness :
    (cexOut.2.1 = Outcome.stale ∨ cexOut.2.1 = Outcome.badBand) ∧
    cexOut.2.2 = [] ∧
    cexOut.1.cedCache = initialState.cedCache ∧
    cexOut.1.timingCache = initialState.timingCache ∧
    (cexOut.2.1 = Outcome.badBand →
      cexOut.1.currentSubframe =
          some (gstSubframe (msgGst initialState.lastTowMod30 cexMsg)) ∧
        cexOut.1.lastTowMod30 = msgTow initialState.lastTowMod30 cexMsg % 30) :=
  C6_amended polls0 initialState cexMsg cexOut (by decide) (by decide)

/-! ## Claim C9: change-detection idempotence -/

/-- Re-running change detection on its own output changes nothing and
reports nothing. -/
theorem cedPollStep_stable (c p : Option (List Nat)) :
    cedPollStep (cedPollStep c p).1 p = ((cedPollStep c p).1, false) := by
  cases p with
  | none => rfl
  | some b =>
    by_cases h : c = some b
    · simp [cedPollStep, h]
    · simp [cedPollStep, h]

/-- Writing a value at an index reads back as that value. -/
theorem getD_set_self (l : List (Option (List Nat))) (i : Nat)
    (d v : Option (List Nat)) (h : i < l.length) :
    (l.set i v).getD i d = v := by
  simp [List.getD, List.getElem?_set, h]

/-- Writing at one index leaves reads at other indices unchanged. -/
theorem getD_set_ne (l : List (Option (List Nat))) (i j : Nat)
    (d v : Option (List Nat)) (h : j ≠ i) :
    (l.set j v).getD i d = l.getD i d := by
  simp [List.getD, List.getElem?_set_ne h]

/-- Writing back the value already present is a no-op. -/
theorem set_getD_self (l : List (Option (List Nat))) (i : Nat)
    (d : Option (List Nat)) (h : i < l.length) :
    l.set i (l.getD i d) = l := by
  induction l generalizing i with
  | nil => simp at h
  | cons a t ih =>
    cases i with
    | zero => simp [List.getD]
    | succ n =>
      have hn : n < t.length := by simpa using h
      simp only [List.getD_cons_succ, List.set_cons_succ]
      rw [ih n hn]

/-- The CED cache after one polling-body step. -/
theorem pollSvnStep_cedCache (polls : Nat → PollResult) (j : Nat)
    (acc : LoopState × List Report) :
    (pollSvnStep polls j acc).1.cedCache =
      acc.1.cedCache.set j
        (cedPollStep (acc.1.cedCache.getD j none) (polls (j + 1)).ced).1 := rfl

/-- The timing cache after one polling-body step. -/
theorem pollSvnStep_timingCache (polls : Nat → PollResult) (j : Nat)
    (acc : LoopState × List Report) :
    (pollSvnStep polls j acc).1.timingCache =
      acc.1.timingCache.set j
        (cedPollStep (acc.1.timingCache.getD j none) (polls (j + 1)).timing).1 := rfl

/-- A stable in-range index makes the polling body a no-op. -/
theorem pollSvnStep_id (polls : Nat → PollResult) (idx : Nat)
    (acc : LoopState × List Report)
    (hced : idx < acc.1.cedCache.length) (htim : idx < acc.1.timingCache.length)
    (hst : StableAt polls acc.1 idx) :
    pollSvnStep polls idx acc = acc := by
  obtain ⟨s, reps⟩ := acc
  obtain ⟨h1, h2⟩ := hst
  simp only [pollSvnStep, h1, h2]
  rw [set_getD_self _ _ _ hced, set_getD_self _ _ _ htim]
  rfl

/-- If every listed index is in range and stable, the polling loop is the
identity on state and reports. -/
theorem pollLoop_id (polls : Nat → PollResult) :
    ∀ (L : List Nat) (s : LoopState) (reps : List Report),
      (∀ idx ∈ L, idx < s.cedCache.length ∧ idx < s.timingCache.length ∧
        StableAt polls s idx) →
      pollLoop polls L (s, reps) = (s, reps) := by
  intro L
  induction L with
  | nil => intro s reps _; rfl
  | cons idx rest ih =>
    intro s reps hall
    obtain ⟨h1, h2, h3⟩ := hall idx (List.mem_cons_self idx rest)
    show pollLoop polls rest (pollSvnStep polls idx (s, reps)) = (s, reps)
    rw [pollSvnStep_id polls idx (s, reps) h1 h2 h3]
    exact ih s reps (fun j hj => hall j (List.mem_cons_of_mem _ hj))

/-- Indices the loop does not visit keep their cache entries. -/
theorem pollLoop_getD_notMem (polls : Nat → PollResult) :
    ∀ (L : List Nat) (acc : LoopState × List Report) (idx : Nat), idx ∉ L →
      (pollLoop polls L acc).1.cedCache.getD idx none =
        acc.1.cedCache.getD idx none ∧
      (pollLoop polls L acc).1.timingCache.getD idx none =
        acc.1.timingCache.getD idx none := by
  intro L
  induction L with
  | nil => exact fun acc idx _ => ⟨rfl, rfl⟩
  | cons j rest ih =>
    intro acc idx hni
    have hj : j ≠ idx := fun h => hni (h ▸ List.mem_cons_self j rest)
    have hrest : idx ∉ rest := fun h => hni (List.mem_cons_of_mem _ h)
    obtain ⟨i1, i2⟩ := ih (pollSvnStep polls j acc) idx hrest
    refine ⟨?_, ?_⟩
    · show (pollLoop polls rest (pollSvnStep polls j acc)).1.cedCache.getD idx none = _
      rw [i1, pollSvnStep_cedCache, getD_set_ne _ _ _ _ _ hj]
    · show (pollLoop polls rest (pollSvnStep polls j acc)).1.timingCache.getD idx none = _
      rw [i2, pollSvnStep_timingCache, getD_set_ne _ _ _ _ _ hj]

/-- A visited index (under `Nodup`, within range) ends up holding exactly
the one-step change-detection result of its original entry. -/
theorem pollLoop_getD_mem (polls : Nat → PollResult) :
    ∀ (L : List Nat) (acc : LoopState × List Report) (idx : Nat),
      idx ∈ L → L.Nodup →
      idx < acc.1.cedCache.length → idx < acc.1.timingCache.length →
      (pollLoop polls L acc).1.cedCache.getD idx none =
        (cedPollStep (acc.1.cedCache.getD idx none) (polls (idx + 1)).ced).1 ∧
      (pollLoop polls L acc).1.timingCache.getD idx none =
        (cedPollStep (acc.1.timingCache.getD idx none) (polls (idx + 1)).timing).1 := by
  intro L
  induction L with
  | nil =>
    intro acc idx h
    simp at h
  | cons j rest ih =>
    intro acc idx hmem hnd hc ht
    rcases List.mem_cons.mp hmem with rfl | hmem2
    · have hnotin : idx ∉ rest := (List.nodup_cons.mp hnd).1
      obtain ⟨n1, n2⟩ := pollLoop_getD_notMem polls rest (pollSvnStep polls idx acc)
        idx hnotin
      refine ⟨?_, ?_⟩
      · show (pollLoop polls rest (pollSvnStep polls idx acc)).1.cedCache.getD idx none = _
        rw [n1, pollSvnStep_cedCache, getD_set_self _ _ _ _ hc]
      · show (pollLoop polls rest (pollSvnStep polls idx acc)).1.timingCache.getD idx none = _
        rw [n2, pollSvnStep_timingCache, getD_set_self _ _ _ _ (by simpa using ht)]
    · have hj : j ≠ idx := fun h => (List.nodup_cons.mp hnd).1 (h ▸ hmem2)
      have hnd2 : rest.Nodup := (List.nodup_cons.mp hnd).2
      have hc2 : idx < (pollSvnStep polls j acc).1.cedCache.length := by
        rw [pollSvnStep_cedCache, List.length_set]
        exact hc
      have ht2 : idx < (pollSvnStep polls j acc).1.timingCache.length := by
        rw [pollSvnStep_timingCache, List.length_set]
        exact ht
      obtain ⟨r1, r2⟩ := ih (pollSvnStep polls j acc) idx hmem2 hnd2 hc2 ht2
      refine ⟨?_, ?_⟩
      · show (pollLoop polls rest (pollSvnStep polls j acc)).1.cedCache.getD idx none = _
        rw [r1, pollSvnStep_cedCache, getD_set_ne _ _ _ _ _ hj]
      · show (pollLoop polls rest (pollSvnStep polls j acc)).1.timingCache.getD idx none = _
        rw [r2, pollSvnStep_timingCache, getD_set_ne _ _ _ _ _ hj]

/-- After one full poll of all satellites, every index is stable. -/
theorem pollAll_stable (polls : Nat → PollResult) (s : LoopState)
    (hc : s.cedCache.length = NUM_SVNS) (ht : s.timingCache.length = NUM_SVNS)
    (idx : Nat) (hidx : idx < NUM_SVNS) :
    StableAt polls (pollAll polls s).1 idx := by
  obtain ⟨m1, m2⟩ := pollLoop_getD_mem polls (List.range NUM_SVNS) (s, []) idx
    (List.mem_range.mpr hidx) (List.nodup_range _) (by rw [hc]; exact hidx)
    (by rw [ht]; exact hidx)
  constructor
  · show cedPollStep ((pollAll polls s).1.cedCache.getD idx none) _ = _
    rw [show (pollAll polls s).1.cedCache.getD idx none =
        (pollLoop polls (List.range NUM_SVNS) (s, [])).1.cedCache.getD idx none
      from rfl, m1]
    exact cedPollStep_stable _ _
  · show cedPollStep ((pollAll polls s).1.timingCache.getD idx none) _ = _
    rw [show (pollAll polls s).1.timingCache.getD idx none =
        (pollLoop polls (List.range NUM_SVNS) (s, [])).1.timingCache.getD idx none
      from rfl, m2]
    exact cedPollStep_stable _ _

/-- C9: a polled buffer identical to the cached one yields no report and no
cache change; a polled buffer absent from or different from the cache is
reported and cached; consequently re-polling the whole constellation with
the same engine output a second time reports nothing and changes nothing —
the same buffer presented twice in a row is reported exactly once. -/
theorem C9_dedup (cached : Option (List Nat)) (b : List Nat)
    (polls : Nat → PollResult) (s : LoopState)
    (hc : s.cedCache.length = NUM_SVNS) (ht : s.timingCache.length = NUM_SVNS) :
    (cached = some b → cedPollStep cached (some b) = (cached, false)) ∧
    (cached ≠ some b → cedPollStep cached (some b) = (some b, true)) ∧
    pollAll polls (pollAll polls s).1 = ((pollAll polls s).1, []) := by
  refine ⟨?_, ?_, ?_⟩
  · intro h
    simp [cedPollStep, h]
  · intro h
    simp [cedPollStep, h]
  · have hlen := pollLoop_preserves polls (List.range NUM_SVNS) (s, [])
    show pollLoop polls (List.range NUM_SVNS) ((pollAll polls s).1, []) =
      ((pollAll polls s).1, [])
    apply pollLoop_id
    intro idx hidx
    have hidx2 := List.mem_range.mp hidx
    refine ⟨?_, ?_, pollAll_stable polls s hc ht idx hidx2⟩
    · show idx < (pollLoop polls (List.range NUM_SVNS) (s, [])).1.cedCache.length
      rw [hlen.2.2.1]
      rw [show ((s, ([] : List Report)).1.cedCache.length) = s.cedCache.length
        from rfl, hc]
      exact hidx2
    · show idx < (pollLoop polls (List.range NUM_SVNS) (s, [])).1.timingCache.length
      rw [hlen.2.2.2]
      rw [show ((s, ([] : List Report)).1.timingCache.length) = s.timingCache.length
        from rfl, ht]
      exact hidx2

/-- Witness for C9 with a cached buffer, the identical polled buffer, the
empty-output oracle, and the initial state. -/
theorem C9_dedup_witness :
    (some [1] = some [1] → cedPollStep (some [1]) (some [1]) = (some [1], false)) ∧
    (some [1] ≠ some [1] → cedPollStep (some [1]) (some [1]) = (some [1], true)) ∧
    pollAll polls0 (pollAll polls0 initialState).1 =
      ((pollAll polls0 initialState).1, []) :=
  C9_dedup (some [1]) [1] polls0 initialState (by decide) (by decide)

/-! ## Claim C10: zero-padded backing arrays and structural equality -/

/-- `bitsToBytes` packs 8 bits per byte (a trailing remainder is dropped;
the constructor's `size % 8 == 0` check rules remainders out). -/
theorem bitsToBytes_length : ∀ l : List Bool, (bitsToBytes l).length = l.length / 8
  | _ :: _ :: _ :: _ :: _ :: _ :: _ :: _ :: rest => by
    have ih := bitsToBytes_length rest
    simp only [bitsToBytes, List.length_cons, ih]
    omega
  | [] => by simp [bitsToBytes]
  | [_] => by simp [bitsToBytes]
  | [_, _] => by simp [bitsToBytes]
  | [_, _, _] => by simp [bitsToBytes]
  | [_, _, _, _] => by simp [bitsToBytes]
  | [_, _, _, _, _] => by simp [bitsToBytes]
  | [_, _, _, _, _, _] => by simp [bitsToBytes]
  | [_, _, _, _, _, _, _] => by simp [bitsToBytes]

/-- Reading inside the taken prefix reads the original list. -/
theorem getD_take_lt (l : List Nat) (m n : Nat) (h : n < m) :
    (l.take m).getD n 0 = l.getD n 0 := by
  rcases Nat.lt_or_ge n l.length with hn | hn
  · have h2 : n < (l.take m).length := by
      rw [List.length_take]
      omega
    rw [List.getD_eq_getElem _ _ h2, List.getD_eq_getElem _ _ hn]
    exact List.getElem_take l
  · have h2 : (l.take m).length ≤ n := by
      rw [List.length_take]
      omega
    rw [List.getD_eq_default _ _ h2, List.getD_eq_default _ _ hn]

/-- C10: keys built by `from_slice`, `from_bitslice`, or `one_way_function`
have a 32-byte backing array that is zero beyond `bit_length / 8`, and on
such keys the derived structural equality coincides with equality of the
logical bytes, the bit length, and the anchor frame. -/
theorem C10_backing (sl : List Nat) (bits : List Bool) (g : Gst)
    (p : ChainParameters) (k ka kb k1 k2 : Key) :
    (Key.from_slice sl g = some k → KeyWf k) ∧
    (Key.from_bitslice bits g = some ka → KeyWf ka) ∧
    (kb.one_way_function p = some k1 → KeyWf k1) ∧
    (KeyWf k1 → KeyWf k2 →
      (k1 = k2 ↔
        k1.data.take (k1.size / 8) = k2.data.take (k2.size / 8) ∧
          k1.size = k2.size ∧ k1.gst_subframe = k2.gst_subframe)) := by
  refine ⟨?_, ?_, ?_, ?_⟩
  · intro h
    simp only [Key.from_slice] at h
    split at h
    case isFalse => simp at h
    case isTrue hcond =>
      obtain rfl := Option.some.inj h
      refine ⟨padTo32_length _, fun i hi hle => padTo32_getD _ _ ?_⟩
      have hle2 : 8 * sl.length / 8 ≤ i := hle
      omega
  · intro h
    simp only [Key.from_bitslice] at h
    split at h
    case isFalse => simp at h
    case isTrue hcond =>
      obtain rfl := Option.some.inj h
      refine ⟨padTo32_length _, fun i hi hle => padTo32_getD _ _ ?_⟩
      have hle2 : bits.length / 8 ≤ i := hle
      rw [bitsToBytes_length]
      exact hle2
  · intro h
    simp only [Key.one_way_function] at h
    split at h
    case isFalse => simp at h
    case isTrue h32 =>
      split at h
      case isTrue => simp at h
      case isFalse =>
        split at h
        case h_1 =>
          obtain rfl := Option.some.inj h
          refine ⟨padTo32_length _, fun i hi hle => padTo32_getD _ _ ?_⟩
          have hle2 : kb.size / 8 ≤ i := hle
          exact le_trans (List.length_take_le _ _) hle2
        case h_2 =>
          obtain rfl := Option.some.inj h
          refine ⟨padTo32_length _, fun i hi hle => padTo32_getD _ _ ?_⟩
          have hle2 : kb.size / 8 ≤ i := hle
          exact le_trans (List.length_take_le _ _) hle2
        case h_3 => simp at h
  · intro hw1 hw2
    constructor
    · rintro rfl
      exact ⟨rfl, rfl, rfl⟩
    · rintro ⟨hdata, hsize, hgst⟩
      obtain ⟨hl1, hz1⟩ := hw1
      obtain ⟨hl2, hz2⟩ := hw2
      obtain ⟨d1, s1, g1⟩ := k1
      obtain ⟨d2, s2, g2⟩ := k2
      have hs : s1 = s2 := hsize
      have hg : g1 = g2 := hgst
      subst hs
      subst hg
      have hdata2 : d1.take (s1 / 8) = d2.take (s1 / 8) := hdata
      have hz1b : ∀ i, i < 32 → s1 / 8 ≤ i → d1.getD i 0 = 0 := hz1
      have hz2b : ∀ i, i < 32 → s1 / 8 ≤ i → d2.getD i 0 = 0 := hz2
      have hlen1 : d1.length = 32 := hl1
      have hlen2 : d2.length = 32 := hl2
      have hd : d1 = d2 := by
        apply List.ext_getElem (by rw [hlen1, hlen2])
        intro n h1 h2
        have hn32 : n < 32 := by
          rw [hlen1] at h1
          exact h1
        rw [← List.getD_eq_getElem d1 0 h1, ← List.getD_eq_getElem d2 0 h2]
        rcases Nat.lt_or_ge n (s1 / 8) with hlt | hge
        · have hgd := congrArg (fun l => l.getD n 0) hdata2
          simp only at hgd
          rw [getD_take_lt _ _ _ hlt, getD_take_lt _ _ _ hlt] at hgd
          exact hgd
        · rw [hz1b n hn32 hge, hz2b n hn32 hge]
      rw [hd]

/-- Witness for C10 with the three concretely constructed keys. -/
theorem C10_backing_witness :
    KeyWf kC3 ∧ KeyWf kBits ∧ KeyWf kC3result ∧
    (kC3result = kC3result ↔
      kC3result.data.take (kC3result.size / 8) =
          kC3result.data.take (kC3result.size / 8) ∧
        kC3result.size = kC3result.size ∧
        kC3result.gst_subframe = kC3result.gst_subframe) := by
  have h := C10_backing [7] (List.replicate 8 true) { wn := 5, tow := 30 }
    testChain kC3 kBits kC3 kC3result kC3result
  exact ⟨h.1 (by decide), h.2.1 (by decide), h.2.2.1 (by decide),
    h.2.2.2 (h.2.2.1 (by decide)) (h.2.2.1 (by decide))⟩

end GalileoOsnma
